import Mathlib

/-!
# Server-sent-event hub (`cmd/main.go`)

A shallow embedding of the broadcast hub of `cmd/main.go`:

* `SSEClient`, `SSEServer` : the two structs of the source;
* `Run_step`, `Run` : one iteration, and a sequence of iterations, of the
  `for { select { ... } }` loop of `SSEServer.Run`;
* `SSEHandler_newClient`, `SSEHandler_loop` : the id assignment and the drain
  loop of `SSEServer.SSEHandler`.

Modelling decisions.

* A channel made by `make(chan string)` is identified by a natural number.
  `Stream` channels are unbuffered: a send completes only when a receiver takes
  the value.  Whether the consumer of a channel takes values is given by
  `accepts : Chan → Bool`; the values that went through a channel, in order,
  are recorded in `World`.
* The three request channels of the server (`AddClient`, `RemoveClient`,
  `Broadcast`) are unbuffered too; the loop takes one request per iteration,
  so a run of the loop is a list of `Request`s.
* `map[int]*SSEClient` is an association list with pairwise different keys.
  The order in which `range server.Clients` visits the entries is not fixed by
  Go; it is given by `range : Nat → ClientMap → ClientMap`, any function that
  permutes the entries, indexed by the iteration of the loop.
* `log.Printf` is not modelled.
-/

namespace SSE

/-- Identity of a channel made by `make(chan string)`. -/
abbrev Chan := Nat

/-- The struct `SSEClient`. -/
structure SSEClient where
  ID : Int
  Stream : Chan
deriving DecidableEq

/-- The type `map[int]*SSEClient`. -/
abbrev ClientMap := List (Int × SSEClient)

/-- The map read `m[k]`. -/
def mapLookup (k : Int) (m : ClientMap) : Option SSEClient :=
  (m.find? (fun e => e.1 == k)).map Prod.snd

/-- The builtin `delete(m, k)`. -/
def mapDelete (k : Int) (m : ClientMap) : ClientMap :=
  m.filter (fun e => e.1 != k)

/-- The map write `m[k] = v`. -/
def mapSet (k : Int) (v : SSEClient) (m : ClientMap) : ClientMap :=
  (k, v) :: mapDelete k m

/-- The keys of a map are pairwise different. -/
def MapOK (m : ClientMap) : Prop := (m.map Prod.fst).Nodup

instance (m : ClientMap) : Decidable (MapOK m) := by
  unfold MapOK; infer_instance

/-- The struct `SSEServer`; its three channels carry the requests of `Request`. -/
structure SSEServer where
  Clients : ClientMap
deriving DecidableEq

/-- The function `NewSSEServer`. -/
def NewSSEServer : SSEServer := { Clients := [] }

/-- The values that went through each `Stream` channel, oldest first. -/
abbrev World := Chan → List String

/-- No value went through any channel. -/
def World.empty : World := fun _ => []

/-- What the `select` of `SSEServer.Run` can receive. -/
inductive Request where
  | Register (client : SSEClient)
  | Deregister (id : Int)
  | Publish (message : String)
deriving DecidableEq

/-- Where the goroutine of `SSEServer.Run` stands after an iteration. -/
inductive Outcome where
  | running (s : SSEServer) (w : World)
  | blocked (s : SSEServer) (w : World)

/-- The server of an outcome. -/
def Outcome.server : Outcome → SSEServer
  | .running s _ => s
  | .blocked s _ => s

/-- The channel histories of an outcome. -/
def Outcome.world : Outcome → World
  | .running _ w => w
  | .blocked _ w => w

/-- The loop is back at its `select`. -/
def Outcome.isRunning : Outcome → Bool
  | .running _ _ => true
  | .blocked _ _ => false

/-- A completed send `ch <- message`. -/
def deliver (w : World) (ch : Chan) (message : String) : World :=
  Function.update w ch (w ch ++ [message])

/-- The loop `for _, client := range server.Clients { client.Stream <- message }`
over the entries in visiting order: the result is the channel histories and
whether the loop ran to its end. -/
def fanout (accepts : Chan → Bool) (message : String) :
    ClientMap → World → World × Bool
  | [], w => (w, true)
  | e :: rest, w =>
    if accepts e.2.Stream then fanout accepts message rest (deliver w e.2.Stream message)
    else (w, false)

/-- One iteration of the loop of `SSEServer.Run`, the `n`-th. -/
def Run_step (range : Nat → ClientMap → ClientMap) (accepts : Chan → Bool) (n : Nat)
    (s : SSEServer) (w : World) : Request → Outcome
  | .Register client => .running { Clients := mapSet client.ID client s.Clients } w
  | .Deregister id => .running { Clients := mapDelete id s.Clients } w
  | .Publish message =>
    match fanout accepts message (range n s.Clients) w with
    | (w', true) => .running s w'
    | (w', false) => .blocked s w'

/-- The loop of `SSEServer.Run` on the requests it receives, from iteration `n` on. -/
def Run (range : Nat → ClientMap → ClientMap) (accepts : Chan → Bool) :
    Nat → SSEServer → World → List Request → Outcome
  | _, s, w, [] => .running s w
  | n, s, w, r :: rest =>
    match Run_step range accepts n s w r with
    | .running s' w' => Run range accepts (n + 1) s' w' rest
    | .blocked s' w' => .blocked s' w'

/-- The visiting order of `range` is some order of the entries of the map. -/
def RangeOK (range : Nat → ClientMap → ClientMap) : Prop :=
  ∀ n m, (range n m).Perm m

/-- The number of entries of the map whose client has `ch` as its `Stream`. -/
def subscribersOn (m : ClientMap) (ch : Chan) : Nat :=
  m.countP (fun e => e.2.Stream == ch)

/-! ### The connection handler -/

/-- The id and the channel of lines 55-59 of `SSEHandler`: the id is
`len(server.Clients) + 1`, the channel is the one `make` returns. -/
def SSEHandler_newClient (server : SSEServer) (stream : Chan) : SSEClient :=
  { ID := (server.Clients.length : Int) + 1, Stream := stream }

/-- The function `fmt.Sprintf` on a format whose verbs are `%s`, one argument
for each verb. -/
def Sprintf : List Char → List String → List Char
  | '%' :: 's' :: rest, a :: args => a.data ++ Sprintf rest args
  | c :: rest, args => c :: Sprintf rest args
  | [], _ => []

/-- An `http.ResponseWriter`: its headers, the bytes written to the body, the
bytes already handed to the connection by `Flush`, and whether the writer is an
`http.Flusher`. -/
structure ResponseWriter where
  header : List (String × String)
  body : String
  flushed : String
  isFlusher : Bool
deriving DecidableEq

/-- The call `fmt.Fprintf(w, format, args...)`. -/
def Fprintf (w : ResponseWriter) (format : String) (args : List String) : ResponseWriter :=
  { w with body := w.body ++ String.mk (Sprintf format.data args) }

/-- The statement `if f, ok := w.(http.Flusher); ok { f.Flush() }`. -/
def Flush (w : ResponseWriter) : ResponseWriter :=
  if w.isFlusher then { w with flushed := w.body } else w

/-- What one receive of `range client.Stream` gives: a value, or the end of a
closed channel. -/
inductive Recv where
  | value (message : String)
  | closed
deriving DecidableEq

/-- The loop `for message := range client.Stream { ... }` of `SSEHandler` on the
receives of the channel so far: the writer, and whether the loop has ended. On
the empty list the loop waits for the next receive. -/
def SSEHandler_loop (w : ResponseWriter) : List Recv → ResponseWriter × Bool
  | [] => (w, false)
  | .closed :: _ => (w, true)
  | .value message :: rest =>
    SSEHandler_loop (Flush (Fprintf w "data: %s\n\n" [message])) rest

/-- The writer of `SSEHandler` when the loop starts: the three headers are set
and nothing is written. The writer of `net/http` is an `http.Flusher`. -/
def SSEHandler_writer : ResponseWriter :=
  { header := [("Content-Type", "text/event-stream"), ("Cache-Control", "no-cache"),
      ("Connection", "keep-alive")],
    body := "", flushed := "", isFlusher := true }

/-! ### Connections and the hub together -/

/-- What happens to the server: a request arrives at `SSEHandler`, the context
of a request is done, `BroadcastMessages` publishes. -/
inductive Event where
  | connect
  | disconnect (id : Int)
  | publish (message : String)
deriving DecidableEq

/-- The hub, the channel histories, the number of `Stream` channels made, the
clients `SSEHandler` has made (newest first) and whether the loop of `Run` is
still at its `select`. -/
structure System where
  server : SSEServer
  world : World
  made : Nat
  handlers : List SSEClient
  hubRunning : Bool

/-- The system of `main` before any request. -/
def System.init : System :=
  { server := NewSSEServer, world := World.empty, made := 0, handlers := [], hubRunning := true }

/-- The request an event hands to the loop of `Run`. On `connect` it is the
client of lines 55-62; on `disconnect` it is the id the goroutine of lines
70-73 sends. -/
def System.request (sys : System) : Event → Request
  | .connect => .Register (SSEHandler_newClient sys.server sys.made)
  | .disconnect id => .Deregister id
  | .publish message => .Publish message

/-- One event, the `n`-th, with its request processed by the loop of `Run`. A
hub that is blocked takes no request. -/
def System.step (range : Nat → ClientMap → ClientMap) (accepts : Chan → Bool) (n : Nat)
    (sys : System) (ev : Event) : System :=
  let made := if ev = .connect then sys.made + 1 else sys.made
  let handlers :=
    if ev = .connect then SSEHandler_newClient sys.server sys.made :: sys.handlers
    else sys.handlers
  if sys.hubRunning then
    let o := Run_step range accepts n sys.server sys.world (sys.request ev)
    { server := o.server, world := o.world, made := made, handlers := handlers,
      hubRunning := o.isRunning }
  else
    { sys with made := made, handlers := handlers }

/-- A sequence of events from event number `n` on. -/
def System.run (range : Nat → ClientMap → ClientMap) (accepts : Chan → Bool) :
    Nat → System → List Event → System
  | _, sys, [] => sys
  | n, sys, ev :: rest => System.run range accepts (n + 1) (System.step range accepts n sys ev) rest

/-- What the drain loop of the handler of `client` has done so far: it has
received the values that went through `client.Stream`; no statement of the
program closes a channel. -/
def System.handler (sys : System) (client : SSEClient) : ResponseWriter × Bool :=
  SSEHandler_loop SSEHandler_writer ((sys.world client.Stream).map Recv.value)

/-! ### Requests of a run -/

/-- The clients the requests register, in order. -/
def registers : List Request → List SSEClient
  | [] => []
  | .Register client :: rest => client :: registers rest
  | _ :: rest => registers rest

/-- The messages the requests publish, in order. -/
def published : List Request → List String
  | [] => []
  | .Publish message :: rest => message :: published rest
  | _ :: rest => published rest

/-- The entries the fan-out serves: those visited before the first one whose
consumer does not take the value. -/
def served (accepts : Chan → Bool) (l : ClientMap) : ClientMap :=
  l.takeWhile (fun e => accepts e.2.Stream)

/-! ### The map -/

theorem mapLookup_eq_none {k : Int} {m : ClientMap} :
    mapLookup k m = none ↔ ∀ e ∈ m, e.1 ≠ k := by
  simp [mapLookup, List.find?_eq_none]

theorem mapDelete_of_absent {k : Int} {m : ClientMap} (h : mapLookup k m = none) :
    mapDelete k m = m := by
  rw [mapLookup_eq_none] at h
  simp only [mapDelete, List.filter_eq_self]
  intro e he
  simpa using h e he

theorem mapLookup_mapDelete_self (k : Int) (m : ClientMap) :
    mapLookup k (mapDelete k m) = none := by
  rw [mapLookup_eq_none]
  intro e he
  simp only [mapDelete, List.mem_filter] at he
  simpa using he.2

theorem mapLookup_mapDelete_ne {k j : Int} (h : j ≠ k) (m : ClientMap) :
    mapLookup j (mapDelete k m) = mapLookup j m := by
  induction m with
  | nil => rfl
  | cons e rest ih =>
    by_cases hk : e.1 = k
    · have hj : ¬ e.1 = j := fun hj => h (hj.symm.trans hk)
      have : mapDelete k (e :: rest) = mapDelete k rest := by
        simp [mapDelete, List.filter_cons, hk]
      rw [this, ih]
      simp [mapLookup, List.find?_cons, hj]
    · have : mapDelete k (e :: rest) = e :: mapDelete k rest := by
        simp [mapDelete, List.filter_cons, hk]
      rw [this]
      by_cases hj : e.1 = j
      · simp [mapLookup, List.find?_cons, hj]
      · have ih2 := ih
        simp only [mapLookup] at ih2 ⊢
        simp [List.find?_cons, hj, ih2]

theorem mapDelete_idem (k : Int) (m : ClientMap) :
    mapDelete k (mapDelete k m) = mapDelete k m :=
  mapDelete_of_absent (mapLookup_mapDelete_self k m)

theorem mapLookup_mapSet_self (k : Int) (v : SSEClient) (m : ClientMap) :
    mapLookup k (mapSet k v m) = some v := by
  simp [mapLookup, mapSet]

theorem mapLookup_mapSet_ne {k j : Int} (h : j ≠ k) (v : SSEClient) (m : ClientMap) :
    mapLookup j (mapSet k v m) = mapLookup j (mapDelete k m) := by
  have hk : ¬ k = j := fun e => h e.symm
  simp [mapLookup, mapSet, List.find?_cons, hk]

theorem mem_mapDelete {k : Int} {m : ClientMap} {e : Int × SSEClient} :
    e ∈ mapDelete k m ↔ e ∈ m ∧ e.1 ≠ k := by
  simp [mapDelete, List.mem_filter]

theorem MapOK_mapDelete {k : Int} {m : ClientMap} (h : MapOK m) : MapOK (mapDelete k m) := by
  unfold MapOK at *
  exact (List.Nodup.sublist (List.Sublist.map _ (List.filter_sublist _)) h)

theorem MapOK_mapSet {k : Int} {v : SSEClient} {m : ClientMap} (h : MapOK m) :
    MapOK (mapSet k v m) := by
  have h2 : MapOK (mapDelete k m) := MapOK_mapDelete h
  unfold MapOK at *
  simp only [mapSet, List.map_cons, List.nodup_cons]
  refine ⟨?_, h2⟩
  intro hk
  obtain ⟨e, he, hek⟩ := List.mem_map.1 hk
  exact (mem_mapDelete.1 he).2 hek

theorem Run_step_MapOK (range : Nat → ClientMap → ClientMap) (accepts : Chan → Bool) (n : Nat)
    (s : SSEServer) (w : World) (r : Request) (h : MapOK s.Clients) :
    MapOK (Run_step range accepts n s w r).server.Clients := by
  cases r with
  | Register client => exact MapOK_mapSet h
  | Deregister id => exact MapOK_mapDelete h
  | Publish message =>
    simp only [Run_step]
    split <;> exact h

/-! ### The fan-out -/

theorem fanout_eq (accepts : Chan → Bool) (message : String) :
    ∀ (l : ClientMap) (w : World), fanout accepts message l w =
      (fun ch => w ch ++ List.replicate (subscribersOn (served accepts l) ch) message,
        l.all (fun e => accepts e.2.Stream)) := by
  intro l
  induction l with
  | nil => intro w; simp [fanout, served, subscribersOn]
  | cons e rest ih =>
    intro w
    by_cases h : accepts e.2.Stream = true
    · rw [fanout, if_pos h, ih]
      refine Prod.ext ?_ ?_
      · funext ch
        by_cases hc : e.2.Stream = ch
        · subst hc
          simp [deliver, served, subscribersOn, List.takeWhile_cons, h, List.countP_cons,
            List.replicate_succ]
        · have hc2 : ¬ ch = e.2.Stream := fun x => hc x.symm
          simp [deliver, served, subscribersOn, List.takeWhile_cons, h, List.countP_cons,
            hc, Function.update_noteq hc2]
      · simp [h]
    · rw [fanout, if_neg h]
      simp [served, subscribersOn, List.takeWhile_cons, h]

theorem served_of_all {accepts : Chan → Bool} {l : ClientMap}
    (h : ∀ e ∈ l, accepts e.2.Stream = true) : served accepts l = l := by
  unfold served
  rw [List.takeWhile_eq_self_iff]
  exact h

theorem subscribersOn_perm {l l' : ClientMap} (h : l.Perm l') (ch : Chan) :
    subscribersOn l ch = subscribersOn l' ch :=
  List.Perm.countP_eq _ h

theorem subscribersOn_eq_zero {l : ClientMap} {ch : Chan} :
    subscribersOn l ch = 0 ↔ ∀ e ∈ l, e.2.Stream ≠ ch := by
  simp [subscribersOn, List.countP_eq_zero]

theorem subscribersOn_pos {l : ClientMap} {e : Int × SSEClient} (h : e ∈ l) :
    0 < subscribersOn l e.2.Stream := by
  unfold subscribersOn
  rw [List.countP_pos_iff]
  exact ⟨e, h, by simp⟩

theorem subscribersOn_served_le (accepts : Chan → Bool) (l : ClientMap) (ch : Chan) :
    subscribersOn (served accepts l) ch ≤ subscribersOn l ch :=
  List.Sublist.countP_le _ (List.takeWhile_sublist _)

/-! ### One iteration -/

theorem Run_step_publish (range : Nat → ClientMap → ClientMap) (accepts : Chan → Bool) (n : Nat)
    (s : SSEServer) (w : World) (message : String) :
    Run_step range accepts n s w (.Publish message) =
      if (range n s.Clients).all (fun e => accepts e.2.Stream) then
        .running s (fun ch => w ch ++
          List.replicate (subscribersOn (served accepts (range n s.Clients)) ch) message)
      else
        .blocked s (fun ch => w ch ++
          List.replicate (subscribersOn (served accepts (range n s.Clients)) ch) message) := by
  simp only [Run_step, fanout_eq]
  cases (range n s.Clients).all (fun e => accepts e.2.Stream) <;> simp

theorem Run_step_publish_all {range : Nat → ClientMap → ClientMap} (hr : RangeOK range)
    {accepts : Chan → Bool} (n : Nat) (s : SSEServer) (w : World) (message : String)
    (h : ∀ e ∈ s.Clients, accepts e.2.Stream = true) :
    Run_step range accepts n s w (.Publish message) =
      .running s (fun ch => w ch ++ List.replicate (subscribersOn s.Clients ch) message) := by
  have h2 : ∀ e ∈ range n s.Clients, accepts e.2.Stream = true :=
    fun e he => h e ((hr n s.Clients).mem_iff.1 he)
  rw [Run_step_publish, served_of_all h2, if_pos (List.all_eq_true.2 h2)]
  congr 1
  funext ch
  rw [subscribersOn_perm (hr n s.Clients)]

theorem Run_step_publish_server (range : Nat → ClientMap → ClientMap) (accepts : Chan → Bool)
    (n : Nat) (s : SSEServer) (w : World) (message : String) :
    (Run_step range accepts n s w (.Publish message)).server = s := by
  rw [Run_step_publish]; split <;> rfl

theorem Run_step_publish_world (range : Nat → ClientMap → ClientMap) (accepts : Chan → Bool)
    (n : Nat) (s : SSEServer) (w : World) (message : String) :
    (Run_step range accepts n s w (.Publish message)).world = fun ch => w ch ++
      List.replicate (subscribersOn (served accepts (range n s.Clients)) ch) message := by
  rw [Run_step_publish]; split <;> rfl

theorem Run_step_publish_quiet {range : Nat → ClientMap → ClientMap} (hr : RangeOK range)
    (accepts : Chan → Bool) (n : Nat) (s : SSEServer) (w : World) (message : String) (ch : Chan)
    (h : ∀ e ∈ s.Clients, e.2.Stream ≠ ch) :
    (Run_step range accepts n s w (.Publish message)).world ch = w ch := by
  rw [Run_step_publish_world]
  have h0 : subscribersOn (served accepts (range n s.Clients)) ch = 0 := by
    have h1 := subscribersOn_served_le accepts (range n s.Clients) ch
    rw [subscribersOn_perm (hr n s.Clients), subscribersOn_eq_zero.2 h] at h1
    omega
  simp [h0]

/-! ### Runs -/

theorem Run_blocked_of_step {range : Nat → ClientMap → ClientMap} {accepts : Chan → Bool}
    {n : Nat} {s s' : SSEServer} {w w' : World} {r : Request}
    (h : Run_step range accepts n s w r = .blocked s' w') (rest : List Request) :
    Run range accepts n s w (r :: rest) = .blocked s' w' := by
  simp [Run, h]

theorem Run_running_of_step {range : Nat → ClientMap → ClientMap} {accepts : Chan → Bool}
    {n : Nat} {s s' : SSEServer} {w w' : World} {r : Request}
    (h : Run_step range accepts n s w r = .running s' w') (rest : List Request) :
    Run range accepts n s w (r :: rest) = Run range accepts (n + 1) s' w' rest := by
  simp [Run, h]

theorem Run_append (range : Nat → ClientMap → ClientMap) (accepts : Chan → Bool) :
    ∀ (a b : List Request) (n : Nat) (s : SSEServer) (w : World),
      Run range accepts n s w (a ++ b) =
        match Run range accepts n s w a with
        | .running s' w' => Run range accepts (n + a.length) s' w' b
        | .blocked s' w' => .blocked s' w' := by
  intro a
  induction a with
  | nil => intro b n s w; simp [Run]
  | cons r rest ih =>
    intro b n s w
    cases h : Run_step range accepts n s w r with
    | running s' w' =>
      rw [List.cons_append, Run_running_of_step h, Run_running_of_step h, ih]
      simp [Nat.add_assoc, Nat.add_comm 1]
    | blocked s' w' =>
      rw [List.cons_append, Run_blocked_of_step h, Run_blocked_of_step h]

/-- A property of the hub that every iteration keeps holds where a run stands. -/
theorem Run_invariant (range : Nat → ClientMap → ClientMap) (accepts : Chan → Bool)
    (P : SSEServer → World → Prop) :
    ∀ (reqs : List Request) (n : Nat) (s : SSEServer) (w : World),
      (∀ r ∈ reqs, ∀ n s w, P s w →
        P (Run_step range accepts n s w r).server (Run_step range accepts n s w r).world) →
      P s w →
      P (Run range accepts n s w reqs).server (Run range accepts n s w reqs).world := by
  intro reqs
  induction reqs with
  | nil => intro n s w _ h; simpa [Run, Outcome.server, Outcome.world] using h
  | cons r rest ih =>
    intro n s w hstep h
    have h1 := hstep r (List.mem_cons_self _ _) n s w h
    cases hs : Run_step range accepts n s w r with
    | running s' w' =>
      rw [Run_running_of_step hs]
      rw [hs] at h1
      exact ih (n + 1) s' w' (fun r hr => hstep r (List.mem_cons_of_mem _ hr)) h1
    | blocked s' w' =>
      rw [Run_blocked_of_step hs]
      rw [hs] at h1
      exact h1

theorem mem_registers {client : SSEClient} :
    ∀ {reqs : List Request}, Request.Register client ∈ reqs → client ∈ registers reqs := by
  intro reqs
  induction reqs with
  | nil => intro h; simp at h
  | cons r rest ih =>
    intro h
    rcases List.mem_cons.1 h with h2 | h2
    · subst h2; simp [registers]
    · have h3 := ih h2
      cases r <;> simp [registers, h3]

theorem mem_published {message : String} :
    ∀ {reqs : List Request}, Request.Publish message ∈ reqs → message ∈ published reqs := by
  intro reqs
  induction reqs with
  | nil => intro h; simp at h
  | cons r rest ih =>
    intro h
    rcases List.mem_cons.1 h with h2 | h2
    · subst h2; simp [published]
    · have h3 := ih h2
      cases r <;> simp [published, h3]

theorem registers_append (a b : List Request) :
    registers (a ++ b) = registers a ++ registers b := by
  induction a with
  | nil => rfl
  | cons r rest ih => cases r <;> simp [registers, ih]

/-- A channel that no entry of the map and no registered client has receives
nothing during a run. -/
theorem Run_quiet {range : Nat → ClientMap → ClientMap} (hr : RangeOK range)
    (accepts : Chan → Bool) (ch : Chan) (reqs : List Request) (n : Nat) (s : SSEServer) (w : World)
    (h0 : ∀ e ∈ s.Clients, e.2.Stream ≠ ch)
    (h1 : ∀ c ∈ registers reqs, c.Stream ≠ ch) :
    (∀ e ∈ (Run range accepts n s w reqs).server.Clients, e.2.Stream ≠ ch) ∧
      (Run range accepts n s w reqs).world ch = w ch := by
  refine Run_invariant range accepts
    (fun s' w' => (∀ e ∈ s'.Clients, e.2.Stream ≠ ch) ∧ w' ch = w ch) reqs n s w ?_ ⟨h0, rfl⟩
  intro r hrm n s' w' ⟨hc, hw⟩
  cases r with
  | Register client =>
    refine ⟨?_, hw⟩
    intro e he
    simp only [Run_step, Outcome.server, mapSet, List.mem_cons] at he
    rcases he with he | he
    · subst he; exact h1 client (mem_registers hrm)
    · exact hc e (mem_mapDelete.1 he).1
  | Deregister id =>
    refine ⟨?_, hw⟩
    intro e he
    simp only [Run_step, Outcome.server] at he
    exact hc e (mem_mapDelete.1 he).1
  | Publish message =>
    rw [Run_step_publish_server, Run_step_publish_quiet hr accepts n s' w' message ch hc]
    exact ⟨hc, hw⟩

/-- What a channel receives during a run are messages the run publishes. -/
theorem Run_extends (range : Nat → ClientMap → ClientMap) (accepts : Chan → Bool) (ch : Chan)
    (reqs : List Request) (n : Nat) (s : SSEServer) (w : World) :
    ∃ extra, (Run range accepts n s w reqs).world ch = w ch ++ extra ∧
      ∀ x ∈ extra, x ∈ published reqs := by
  refine Run_invariant range accepts
    (fun _ w' => ∃ extra, w' ch = w ch ++ extra ∧ ∀ x ∈ extra, x ∈ published reqs)
    reqs n s w ?_ ⟨[], by simp, by simp⟩
  intro r hrm n s' w' ⟨extra, hw, hx⟩
  cases r with
  | Register client => exact ⟨extra, hw, hx⟩
  | Deregister id => exact ⟨extra, hw, hx⟩
  | Publish message =>
    rw [Run_step_publish_world]
    refine ⟨extra ++ List.replicate
      (subscribersOn (served accepts (range n s'.Clients)) ch) message, ?_, ?_⟩
    · simp [hw]
    · intro x hxm
      rcases List.mem_append.1 hxm with hxm | hxm
      · exact hx x hxm
      · rw [(List.mem_replicate.1 hxm).2]; exact mem_published hrm

theorem subscribersOn_eq_one {l : ClientMap} (h : (l.map (fun e => e.2.Stream)).Nodup)
    {e : Int × SSEClient} (he : e ∈ l) : subscribersOn l e.2.Stream = 1 := by
  induction l with
  | nil => simp at he
  | cons a rest ih =>
    simp only [List.map_cons, List.nodup_cons] at h
    rcases List.mem_cons.1 he with hea | hea
    · subst hea
      have h0 : subscribersOn rest e.2.Stream = 0 :=
        subscribersOn_eq_zero.2 (fun x hx hxe => h.1 (List.mem_map.2 ⟨x, hx, hxe⟩))
      simp only [subscribersOn] at h0
      simp [subscribersOn, List.countP_cons, h0]
    · have hne : a.2.Stream ≠ e.2.Stream :=
        fun hae => h.1 (List.mem_map.2 ⟨e, hea, hae.symm⟩)
      have h1 := ih h.2 hea
      simp only [subscribersOn] at h1
      simp [subscribersOn, List.countP_cons, h1, hne]

theorem Run_publishes {range : Nat → ClientMap → ClientMap} (hr : RangeOK range)
    {accepts : Chan → Bool} (s : SSEServer)
    (h : ∀ e ∈ s.Clients, accepts e.2.Stream = true) :
    ∀ (msgs : List String) (n : Nat) (w : World),
      ∃ w', Run range accepts n s w (msgs.map Request.Publish) = .running s w' ∧
        ∀ ch, (subscribersOn s.Clients ch = 1 → w' ch = w ch ++ msgs) ∧
          (subscribersOn s.Clients ch = 0 → w' ch = w ch) := by
  intro msgs
  induction msgs with
  | nil => intro n w; exact ⟨w, by simp [Run], by simp⟩
  | cons m rest ih =>
    intro n w
    obtain ⟨w', hrun, hw⟩ := ih (n + 1)
      (fun ch => w ch ++ List.replicate (subscribersOn s.Clients ch) m)
    refine ⟨w', ?_, ?_⟩
    · rw [List.map_cons, Run_running_of_step (Run_step_publish_all hr n s w m h), hrun]
    · intro ch
      refine ⟨fun h1 => ?_, fun h0 => ?_⟩
      · rw [(hw ch).1 h1, h1]; simp
      · rw [(hw ch).2 h0, h0]; simp

/-! ### The drain loop -/

theorem Sprintf_data_frame (message : String) :
    String.mk (Sprintf "data: %s\n\n".data [message]) = "data: " ++ message ++ "\n\n" := by
  apply String.ext
  simp [Sprintf]

theorem Fprintf_frame (w : ResponseWriter) (message : String) :
    Fprintf w "data: %s\n\n" [message] =
      { w with body := w.body ++ ("data: " ++ message ++ "\n\n") } := by
  unfold Fprintf
  rw [Sprintf_data_frame]

theorem Flush_body (w : ResponseWriter) : (Flush w).body = w.body := by
  unfold Flush; split <;> rfl

theorem String_join_cons (a : String) (l : List String) :
    String.join (a :: l) = a ++ String.join l := by
  apply String.ext
  simp

theorem SSEHandler_loop_values (msgs : List String) :
    ∀ w : ResponseWriter,
      (SSEHandler_loop w (msgs.map Recv.value)).1.body =
          w.body ++ String.join (msgs.map (fun m => "data: " ++ m ++ "\n\n")) ∧
        (SSEHandler_loop w (msgs.map Recv.value)).2 = false := by
  induction msgs with
  | nil => intro w; simp [SSEHandler_loop, String.join]
  | cons m rest ih =>
    intro w
    rw [List.map_cons, SSEHandler_loop]
    refine ⟨?_, (ih _).2⟩
    rw [(ih _).1, Flush_body, Fprintf_frame, List.map_cons, String_join_cons]
    simp only [String.append_assoc]

theorem SSEHandler_loop_append_closed (events : List Recv) (msgs : List String) :
    ∀ w : ResponseWriter,
      SSEHandler_loop w (msgs.map Recv.value ++ .closed :: events) =
        ((SSEHandler_loop w (msgs.map Recv.value)).1, true) := by
  induction msgs with
  | nil => intro w; simp [SSEHandler_loop]
  | cons m rest ih =>
    intro w
    simp only [List.map_cons, List.cons_append, SSEHandler_loop]
    exact ih _

/-! ### The system -/

/-- A channel made earlier that no subscriber in Clients has stays so through
an event, and nothing is sent on it. -/
theorem System.step_quiet {range : Nat → ClientMap → ClientMap} (hr : RangeOK range)
    (accepts : Chan → Bool) (n : Nat) (sys : System) (ev : Event) (ch : Nat)
    (h0 : ∀ e ∈ sys.server.Clients, e.2.Stream ≠ ch) (h1 : ch < sys.made) :
    (∀ e ∈ (System.step range accepts n sys ev).server.Clients, e.2.Stream ≠ ch) ∧
      ch < (System.step range accepts n sys ev).made ∧
      (System.step range accepts n sys ev).world ch = sys.world ch := by
  have hmade : ch < (System.step range accepts n sys ev).made := by
    unfold System.step
    by_cases hub : sys.hubRunning = true <;> by_cases hev : ev = .connect <;>
      simp [hub, hev] <;> omega
  refine ⟨?_, hmade, ?_⟩
  · by_cases hub : sys.hubRunning = true
    · cases ev with
      | connect =>
        intro e he
        simp only [System.step, hub, if_true, System.request, Run_step, Outcome.server, mapSet,
          List.mem_cons] at he
        rcases he with he | he
        · subst he
          simp only [SSEHandler_newClient]
          exact Nat.ne_of_gt h1
        · exact h0 e (mem_mapDelete.1 he).1
      | disconnect id =>
        intro e he
        simp only [System.step, hub, if_true, System.request, Run_step, Outcome.server] at he
        exact h0 e (mem_mapDelete.1 he).1
      | publish message =>
        intro e he
        simp only [System.step, hub, if_true, System.request, Run_step_publish_server] at he
        exact h0 e he
    · intro e he
      simp only [System.step, hub] at he
      exact h0 e he
  · by_cases hub : sys.hubRunning = true
    · cases ev with
      | connect => simp [System.step, hub, System.request, Run_step, Outcome.world]
      | disconnect id => simp [System.step, hub, System.request, Run_step, Outcome.world]
      | publish message =>
        simp only [System.step, hub, if_true, System.request]
        exact Run_step_publish_quiet hr accepts n sys.server sys.world message ch h0
    · simp [System.step, hub]

theorem System.run_quiet {range : Nat → ClientMap → ClientMap} (hr : RangeOK range)
    (accepts : Chan → Bool) (ch : Nat) :
    ∀ (evs : List Event) (n : Nat) (sys : System),
      (∀ e ∈ sys.server.Clients, e.2.Stream ≠ ch) → ch < sys.made →
      (∀ e ∈ (System.run range accepts n sys evs).server.Clients, e.2.Stream ≠ ch) ∧
        (System.run range accepts n sys evs).world ch = sys.world ch := by
  intro evs
  induction evs with
  | nil => intro n sys h0 _; exact ⟨h0, rfl⟩
  | cons ev rest ih =>
    intro n sys h0 h1
    obtain ⟨a, b, c⟩ := System.step_quiet hr accepts n sys ev ch h0 h1
    obtain ⟨d, e⟩ := ih (n + 1) _ a b
    exact ⟨d, e.trans c⟩

theorem System.step_handlers (range : Nat → ClientMap → ClientMap) (accepts : Chan → Bool)
    (n : Nat) (sys : System) (ev : Event) (c : SSEClient) (h : c ∈ sys.handlers) :
    c ∈ (System.step range accepts n sys ev).handlers := by
  unfold System.step
  by_cases hub : sys.hubRunning = true <;> by_cases hev : ev = .connect <;> simp [hub, hev, h]

theorem System.run_handlers (range : Nat → ClientMap → ClientMap) (accepts : Chan → Bool)
    (c : SSEClient) :
    ∀ (evs : List Event) (n : Nat) (sys : System), c ∈ sys.handlers →
      c ∈ (System.run range accepts n sys evs).handlers := by
  intro evs
  induction evs with
  | nil => intro n sys h; exact h
  | cons ev rest ih =>
    intro n sys h
    exact ih (n + 1) _ (System.step_handlers range accepts n sys ev c h)

/-! ## The claims -/

/-- C1. From the empty hub, the requests Register 1, 2, 3, Publish "A",
Deregister 2, Publish "B", processed one per iteration by the loop of `Run`
while the consumers of the three outboxes take what is sent, are all processed,
and the outbox of subscriber 1 has received exactly "A", "B", that of
subscriber 2 exactly "A" and that of subscriber 3 exactly "A", "B"; this holds
in whatever order `range` visits the map. -/
theorem scenario_register_publish_deregister (range : Nat → ClientMap → ClientMap)
    (hr : RangeOK range) (accepts : Chan → Bool) (n : Nat) (c1 c2 c3 : Chan)
    (h12 : c1 ≠ c2) (h13 : c1 ≠ c3) (h23 : c2 ≠ c3)
    (a1 : accepts c1 = true) (a2 : accepts c2 = true) (a3 : accepts c3 = true) :
    ∃ s w, Run range accepts n NewSSEServer World.empty
        [.Register ⟨1, c1⟩, .Register ⟨2, c2⟩, .Register ⟨3, c3⟩, .Publish "A",
          .Deregister 2, .Publish "B"] = .running s w ∧
      w c1 = ["A", "B"] ∧ w c2 = ["A"] ∧ w c3 = ["A", "B"] := by
  have e1 : Run_step range accepts n NewSSEServer World.empty (.Register ⟨1, c1⟩) =
      .running ⟨[(1, ⟨1, c1⟩)]⟩ World.empty := rfl
  have e2 : Run_step range accepts (n + 1) ⟨[(1, ⟨1, c1⟩)]⟩ World.empty (.Register ⟨2, c2⟩) =
      .running ⟨[(2, ⟨2, c2⟩), (1, ⟨1, c1⟩)]⟩ World.empty := rfl
  have e3 : Run_step range accepts (n + 1 + 1) ⟨[(2, ⟨2, c2⟩), (1, ⟨1, c1⟩)]⟩ World.empty
      (.Register ⟨3, c3⟩) =
      .running ⟨[(3, ⟨3, c3⟩), (2, ⟨2, c2⟩), (1, ⟨1, c1⟩)]⟩ World.empty := rfl
  have e4 := @Run_step_publish_all range hr accepts (n + 1 + 1 + 1)
    ⟨[(3, ⟨3, c3⟩), (2, ⟨2, c2⟩), (1, ⟨1, c1⟩)]⟩ World.empty "A"
    (by intro e he; simp at he; rcases he with he | he | he <;> subst he <;> assumption)
  have e5 : ∀ w, Run_step range accepts (n + 1 + 1 + 1 + 1)
      ⟨[(3, ⟨3, c3⟩), (2, ⟨2, c2⟩), (1, ⟨1, c1⟩)]⟩ w (.Deregister 2) =
      .running ⟨[(3, ⟨3, c3⟩), (1, ⟨1, c1⟩)]⟩ w := fun _ => rfl
  have e6 := fun w => @Run_step_publish_all range hr accepts (n + 1 + 1 + 1 + 1 + 1)
    ⟨[(3, ⟨3, c3⟩), (1, ⟨1, c1⟩)]⟩ w "B"
    (by intro e he; simp at he; rcases he with he | he <;> subst he <;> assumption)
  rw [Run_running_of_step e1, Run_running_of_step e2, Run_running_of_step e3,
    Run_running_of_step e4, Run_running_of_step (e5 _), Run_running_of_step (e6 _)]
  refine ⟨_, _, rfl, ?_, ?_, ?_⟩
  · simp [World.empty, subscribersOn, List.countP_cons, h12, h13, h13.symm, h12.symm]
  · simp [World.empty, subscribersOn, List.countP_cons, h12, h23, h23.symm, h12.symm]
  · simp [World.empty, subscribersOn, List.countP_cons, h13, h23, h23.symm, h13.symm]

/-- Witness of C1: the channels 11, 12, 13, visited in the order of the list. -/
theorem scenario_register_publish_deregister_witness :
    ∃ s w, Run (fun _ m => m) (fun _ => true) 0 NewSSEServer World.empty
        [.Register ⟨1, 11⟩, .Register ⟨2, 12⟩, .Register ⟨3, 13⟩, .Publish "A",
          .Deregister 2, .Publish "B"] = .running s w ∧
      w 11 = ["A", "B"] ∧ w 12 = ["A"] ∧ w 13 = ["A", "B"] :=
  scenario_register_publish_deregister (fun _ m => m) (fun _ m => List.Perm.refl m)
    (fun _ => true) 0 11 12 13 (by decide) (by decide) (by decide) rfl rfl rfl

/-- C2, as the code has it. One iteration of `Run` on Publish(m). In every
case the outbox of a channel that no subscriber in Clients has is left as it
was, and the outbox of any channel gets m at most once for each subscriber in
Clients that has it. When the outbox of every subscriber in Clients accepts
the message, the iteration ends with the loop back at its `select`, Clients as
it was, and m appended exactly once for each subscriber in Clients: once to
the outbox of a subscriber whose channel is its own. -/
theorem publish_delivers_once_to_members (range : Nat → ClientMap → ClientMap)
    (hr : RangeOK range) (accepts : Chan → Bool) (n : Nat) (s : SSEServer) (w : World)
    (m : String) :
    (∀ ch, (∀ e ∈ s.Clients, e.2.Stream ≠ ch) →
        (Run_step range accepts n s w (.Publish m)).world ch = w ch) ∧
    (∀ ch, ∃ k, k ≤ subscribersOn s.Clients ch ∧
        (Run_step range accepts n s w (.Publish m)).world ch = w ch ++ List.replicate k m) ∧
    ((∀ e ∈ s.Clients, accepts e.2.Stream = true) →
      ∃ w', Run_step range accepts n s w (.Publish m) = .running s w' ∧
        (∀ ch, w' ch = w ch ++ List.replicate (subscribersOn s.Clients ch) m) ∧
        (∀ e ∈ s.Clients, subscribersOn s.Clients e.2.Stream = 1 →
          w' e.2.Stream = w e.2.Stream ++ [m])) := by
  refine ⟨fun ch h => Run_step_publish_quiet hr accepts n s w m ch h, fun ch => ?_, fun h => ?_⟩
  · refine ⟨subscribersOn (served accepts (range n s.Clients)) ch, ?_, ?_⟩
    · have h1 := subscribersOn_served_le accepts (range n s.Clients) ch
      rwa [subscribersOn_perm (hr n s.Clients)] at h1
    · rw [Run_step_publish_world]
  · refine ⟨_, Run_step_publish_all hr n s w m h, fun ch => rfl, fun e _ h1 => ?_⟩
    simp [h1]

/-- Witness of the amended C2: subscribers 1 and 2 on the channels 0 and 1,
channel 2 unused. -/
theorem publish_delivers_once_to_members_witness :
    (Run_step (fun _ m => m) (fun _ => true) 0 ⟨[(1, ⟨1, 0⟩), (2, ⟨2, 1⟩)]⟩ World.empty
        (.Publish "m")).world 2 = [] ∧
    ∃ w', Run_step (fun _ m => m) (fun _ => true) 0 ⟨[(1, ⟨1, 0⟩), (2, ⟨2, 1⟩)]⟩ World.empty
        (.Publish "m") = .running ⟨[(1, ⟨1, 0⟩), (2, ⟨2, 1⟩)]⟩ w' ∧
      w' 0 = ["m"] ∧ w' 1 = ["m"] := by
  have h := publish_delivers_once_to_members (fun _ m => m) (fun _ m => List.Perm.refl m)
    (fun _ => true) 0 ⟨[(1, ⟨1, 0⟩), (2, ⟨2, 1⟩)]⟩ World.empty "m"
  refine ⟨h.1 2 (by decide), ?_⟩
  obtain ⟨w', h1, _, h3⟩ := h.2.2 (fun _ _ => rfl)
  exact ⟨w', h1, h3 (1, ⟨1, 0⟩) (by decide) (by decide), h3 (2, ⟨2, 1⟩) (by decide) (by decide)⟩

/-- C2 as stated fails. With subscriber 1 alone in Clients (channel 0) and its
consumer not taking values, Publish "m" appends nothing to its outbox and the
loop blocks in the send. With subscriber 1 (channel 0, consumer not taking)
visited before subscriber 2 (channel 1, consumer taking), both in Clients,
Publish "m" appends nothing to the outbox of subscriber 2 either. -/
theorem publish_misses_member_behind_stalled :
    mapLookup 1 [(1, (⟨1, 0⟩ : SSEClient))] = some ⟨1, 0⟩ ∧
    (Run_step (fun _ m => m) (fun _ => false) 0 ⟨[(1, ⟨1, 0⟩)]⟩ World.empty
        (.Publish "m")).world 0 = [] ∧
    (Run_step (fun _ m => m) (fun _ => false) 0 ⟨[(1, ⟨1, 0⟩)]⟩ World.empty
        (.Publish "m")).isRunning = false ∧
    mapLookup 2 [(1, (⟨1, 0⟩ : SSEClient)), (2, ⟨2, 1⟩)] = some ⟨2, 1⟩ ∧
    (Run_step (fun _ m => m) (fun ch => ch == 1) 0 ⟨[(1, ⟨1, 0⟩), (2, ⟨2, 1⟩)]⟩ World.empty
        (.Publish "m")).world 1 = [] := by
  decide

/-- C5. One iteration of `Run` on Deregister(id) ends with the loop back at its
`select`, no outbox changed, and id absent from Clients; when id was absent
already the hub is as it was; and two Deregister(id) in a row leave the hub as
one does. -/
theorem deregister_absent_idempotent (range : Nat → ClientMap → ClientMap)
    (accepts : Chan → Bool) (n : Nat) (s : SSEServer) (w : World) (id : Int) :
    (∃ s', Run_step range accepts n s w (.Deregister id) = .running s' w ∧
      mapLookup id s'.Clients = none) ∧
    (mapLookup id s.Clients = none →
      Run_step range accepts n s w (.Deregister id) = .running s w) ∧
    Run range accepts n s w [.Deregister id, .Deregister id] =
      Run range accepts n s w [.Deregister id] := by
  refine ⟨⟨_, rfl, mapLookup_mapDelete_self id s.Clients⟩, fun h => ?_, ?_⟩
  · simp only [Run_step]
    rw [mapDelete_of_absent h]
  · simp only [Run, Run_step]
    rw [mapDelete_idem]

/-- Witness of C5: id 7 is absent from a hub that has subscriber 1. -/
theorem deregister_absent_idempotent_witness :
    Run_step (fun _ m => m) (fun _ => true) 0 ⟨[(1, ⟨1, 0⟩)]⟩ World.empty (.Deregister 7) =
      .running ⟨[(1, ⟨1, 0⟩)]⟩ World.empty :=
  (deregister_absent_idempotent (fun _ m => m) (fun _ => true) 0 ⟨[(1, ⟨1, 0⟩)]⟩ World.empty
    7).2.1 (by decide)

/-- C6. With Clients fixed, each subscriber on a channel of its own, and the
consumers of the subscribers in Clients taking what is sent, the loop of `Run`
processes any list of publishes to its end, Clients is as it was, the outbox of
every subscriber in Clients has received exactly the published messages in
publish order after what it held, and no other outbox has changed. -/
theorem publishes_arrive_in_order (range : Nat → ClientMap → ClientMap) (hr : RangeOK range)
    (accepts : Chan → Bool) (n : Nat) (s : SSEServer) (w : World) (msgs : List String)
    (hown : (s.Clients.map (fun e => e.2.Stream)).Nodup)
    (hacc : ∀ e ∈ s.Clients, accepts e.2.Stream = true) :
    ∃ w', Run range accepts n s w (msgs.map Request.Publish) = .running s w' ∧
      (∀ e ∈ s.Clients, w' e.2.Stream = w e.2.Stream ++ msgs) ∧
      (∀ ch, (∀ e ∈ s.Clients, e.2.Stream ≠ ch) → w' ch = w ch) := by
  obtain ⟨w', hrun, hw⟩ := Run_publishes hr s hacc msgs n w
  exact ⟨w', hrun, fun e he => (hw _).1 (subscribersOn_eq_one hown he),
    fun ch h => (hw ch).2 (subscribersOn_eq_zero.2 h)⟩

/-- Witness of C6: three publishes to subscribers 1 and 2. -/
theorem publishes_arrive_in_order_witness :
    ∃ w', Run (fun _ m => m) (fun _ => true) 0 ⟨[(1, ⟨1, 0⟩), (2, ⟨2, 1⟩)]⟩ World.empty
        [.Publish "M1", .Publish "M2", .Publish "M3"] =
        .running ⟨[(1, ⟨1, 0⟩), (2, ⟨2, 1⟩)]⟩ w' ∧
      w' 0 = ["M1", "M2", "M3"] ∧ w' 1 = ["M1", "M2", "M3"] := by
  obtain ⟨w', h1, h2, _⟩ := publishes_arrive_in_order (fun _ m => m)
    (fun _ m => List.Perm.refl m) (fun _ => true) 0 ⟨[(1, ⟨1, 0⟩), (2, ⟨2, 1⟩)]⟩ World.empty
    ["M1", "M2", "M3"] (by decide) (fun _ _ => rfl)
  exact ⟨w', h1, h2 (1, ⟨1, 0⟩) (by decide), h2 (2, ⟨2, 1⟩) (by decide)⟩

/-- C10. One iteration of `Run` changes Clients only at the key of its request.
Register(c) ends with the loop at its `select`, no outbox changed, c stored at
key c.ID and every other key as it was; Deregister(id) ends with the loop at
its `select`, no outbox changed, id absent and every other key as it was;
Publish(m) leaves Clients as it was, whether or not the fan-out ends. -/
theorem step_changes_only_named_key (range : Nat → ClientMap → ClientMap)
    (accepts : Chan → Bool) (n : Nat) (s : SSEServer) (w : World) :
    (∀ c : SSEClient, ∃ s', Run_step range accepts n s w (.Register c) = .running s' w ∧
      mapLookup c.ID s'.Clients = some c ∧
      ∀ k, k ≠ c.ID → mapLookup k s'.Clients = mapLookup k s.Clients) ∧
    (∀ id : Int, ∃ s', Run_step range accepts n s w (.Deregister id) = .running s' w ∧
      mapLookup id s'.Clients = none ∧
      ∀ k, k ≠ id → mapLookup k s'.Clients = mapLookup k s.Clients) ∧
    (∀ m : String, (Run_step range accepts n s w (.Publish m)).server = s) := by
  refine ⟨fun c => ⟨_, rfl, mapLookup_mapSet_self _ _ _, fun k hk => ?_⟩,
    fun id => ⟨_, rfl, mapLookup_mapDelete_self _ _, fun k hk => ?_⟩,
    fun m => Run_step_publish_server range accepts n s w m⟩
  · rw [mapLookup_mapSet_ne hk, mapLookup_mapDelete_ne hk]
  · exact mapLookup_mapDelete_ne hk _

/-- Witness of C10: registering subscriber 2 leaves key 1 as it was. -/
theorem step_changes_only_named_key_witness :
    ∃ s', Run_step (fun _ m => m) (fun _ => true) 0 ⟨[(1, ⟨1, 0⟩)]⟩ World.empty
        (.Register ⟨2, 1⟩) = .running s' World.empty ∧
      mapLookup 2 s'.Clients = some ⟨2, 1⟩ ∧ mapLookup 1 s'.Clients = some ⟨1, 0⟩ := by
  obtain ⟨s', h1, h2, h3⟩ := (step_changes_only_named_key (fun _ m => m) (fun _ => true) 0
    ⟨[(1, ⟨1, 0⟩)]⟩ World.empty).1 ⟨2, 1⟩
  exact ⟨s', h1, h2, (h3 1 (by decide)).trans (by decide)⟩

theorem subscribersOn_served_stalled {accepts : Chan → Bool} {ch : Chan}
    (h : accepts ch = false) (l : ClientMap) : subscribersOn (served accepts l) ch = 0 := by
  rw [subscribersOn_eq_zero]
  intro e he hch
  have h1 := List.mem_takeWhile_imp he
  simp only [hch, h] at h1
  exact Bool.noConfusion h1

/-- C3, as the code has it. When some subscriber A in Clients has an outbox
that cannot accept a message, one iteration of `Run` on Publish(m) never ends:
the loop blocks in the send to the first such subscriber `range` visits, with
Clients as it was. Only the subscribers visited before that one have received
m, once each; the outbox of A has received nothing; and whatever requests
follow, none is processed. -/
theorem publish_blocks_at_stalled (range : Nat → ClientMap → ClientMap) (hr : RangeOK range)
    (accepts : Chan → Bool) (n : Nat) (s : SSEServer) (w : World) (m : String)
    (rest : List Request) (A : Int × SSEClient) (hA : A ∈ s.Clients)
    (hstall : accepts A.2.Stream = false) :
    ∃ w', Run_step range accepts n s w (.Publish m) = .blocked s w' ∧
      Run range accepts n s w (.Publish m :: rest) = .blocked s w' ∧
      w' A.2.Stream = w A.2.Stream ∧
      ∀ ch, w' ch = w ch ++
        List.replicate (subscribersOn (served accepts (range n s.Clients)) ch) m := by
  have hall : (range n s.Clients).all (fun e => accepts e.2.Stream) = false := by
    rw [Bool.eq_false_iff]
    intro hall
    have := List.all_eq_true.1 hall A ((hr n s.Clients).mem_iff.2 hA)
    simp [hstall] at this
  have hstep : Run_step range accepts n s w (.Publish m) = .blocked s (fun ch => w ch ++
      List.replicate (subscribersOn (served accepts (range n s.Clients)) ch) m) := by
    rw [Run_step_publish, hall]; rfl
  refine ⟨_, hstep, Run_blocked_of_step hstep rest, ?_, fun ch => rfl⟩
  simp [subscribersOn_served_stalled hstall]

/-- Witness of the amended C3: A is subscriber 1 on channel 0, B subscriber 2 on channel 1. -/
theorem publish_blocks_at_stalled_witness :
    ∃ w', Run (fun _ m => m) (fun ch => ch == 1) 0 ⟨[(1, ⟨1, 0⟩), (2, ⟨2, 1⟩)]⟩ World.empty
        [.Publish "m", .Publish "n"] = .blocked ⟨[(1, ⟨1, 0⟩), (2, ⟨2, 1⟩)]⟩ w' ∧
      w' 0 = [] := by
  obtain ⟨w', _, h2, h3, _⟩ := publish_blocks_at_stalled (fun _ m => m)
    (fun _ m => List.Perm.refl m) (fun ch => ch == 1) 0 ⟨[(1, ⟨1, 0⟩), (2, ⟨2, 1⟩)]⟩
    World.empty "m" [.Publish "n"] (1, ⟨1, 0⟩) (by decide) rfl
  exact ⟨w', h2, h3⟩

/-- C3 as stated fails. A is subscriber 1 (channel 0, consumer stalled), B is
subscriber 2 (channel 1, consumer taking). When `range` visits A first, the
loop blocks in Publish "m", B has received nothing and "n" is never processed;
when it visits B first, B has received "m", the loop blocks all the same and B
never receives "n". -/
theorem stalled_subscriber_stops_fanout :
    (Run (fun _ m => m) (fun ch => ch == 1) 0 ⟨[(1, ⟨1, 0⟩), (2, ⟨2, 1⟩)]⟩ World.empty
        [.Publish "m", .Publish "n"]).isRunning = false ∧
    (Run (fun _ m => m) (fun ch => ch == 1) 0 ⟨[(1, ⟨1, 0⟩), (2, ⟨2, 1⟩)]⟩ World.empty
        [.Publish "m", .Publish "n"]).world 1 = [] ∧
    (Run (fun _ m => m.reverse) (fun ch => ch == 1) 0 ⟨[(1, ⟨1, 0⟩), (2, ⟨2, 1⟩)]⟩ World.empty
        [.Publish "m", .Publish "n"]).isRunning = false ∧
    (Run (fun _ m => m.reverse) (fun ch => ch == 1) 0 ⟨[(1, ⟨1, 0⟩), (2, ⟨2, 1⟩)]⟩ World.empty
        [.Publish "m", .Publish "n"]).world 1 = ["m"] := by
  decide

/-- C7. For a subscriber c and a message M in a run of the loop of `Run`.
Registered after: when no subscriber in Clients and no client registered
before Publish(M) has the channel of c, the outbox of c is as it was once
Publish(M) is processed, and what it receives after a later Register(c) are
messages published after that Register. Deregistered before: when the channel
of c is held only under the id of c, after Deregister(c.ID) and until a client
with that channel is registered again the outbox of c receives nothing,
Publish(M) included. Member: when the loop has processed the requests before
Publish(M), c is in Clients and the consumers of the subscribers in Clients
take what is sent, Publish(M) is processed and the outbox of c receives M. -/
theorem registration_boundary (range : Nat → ClientMap → ClientMap) (hr : RangeOK range)
    (accepts : Chan → Bool) (n : Nat) (s : SSEServer) (w : World) (c : SSEClient) (M : String) :
    (∀ pre post : List Request,
      (∀ e ∈ s.Clients, e.2.Stream ≠ c.Stream) →
      (∀ c' ∈ registers pre, c'.Stream ≠ c.Stream) →
      (Run range accepts n s w (pre ++ [.Publish M])).world c.Stream = w c.Stream ∧
      ∃ extra, (Run range accepts n s w
            (pre ++ .Publish M :: .Register c :: post)).world c.Stream = w c.Stream ++ extra ∧
          ∀ x ∈ extra, x ∈ published post) ∧
    (∀ p1 p2 post : List Request,
      (∀ e ∈ s.Clients, e.2.Stream = c.Stream → e.1 = c.ID) →
      (∀ c' ∈ registers p1, c'.Stream = c.Stream → c'.ID = c.ID) →
      (∀ c' ∈ registers (p2 ++ .Publish M :: post), c'.Stream ≠ c.Stream) →
      (Run range accepts n s w
          (p1 ++ .Deregister c.ID :: (p2 ++ .Publish M :: post))).world c.Stream =
        (Run range accepts n s w (p1 ++ [.Deregister c.ID])).world c.Stream) ∧
    (∀ (pre : List Request) (s1 : SSEServer) (w1 : World),
      Run range accepts n s w pre = .running s1 w1 →
      (∃ k, (k, c) ∈ s1.Clients) →
      (∀ e ∈ s1.Clients, accepts e.2.Stream = true) →
      ∃ w2 k, Run range accepts n s w (pre ++ [.Publish M]) = .running s1 w2 ∧
        0 < k ∧ w2 c.Stream = w1 c.Stream ++ List.replicate k M) := by
  refine ⟨fun pre post h0 h1 => ?_, fun p1 p2 post h0 h1 h2 => ?_,
    fun pre s1 w1 hrun hmem hacc => ?_⟩
  · have hq := Run_quiet hr accepts c.Stream (pre ++ [.Publish M]) n s w h0
      (by simpa [registers_append, registers] using h1)
    refine ⟨hq.2, ?_⟩
    have happ : pre ++ Request.Publish M :: Request.Register c :: post =
        (pre ++ [.Publish M]) ++ (.Register c :: post) := by simp
    rw [happ, Run_append]
    cases hp : Run range accepts n s w (pre ++ [.Publish M]) with
    | running s1 w1 =>
      rw [hp] at hq
      obtain ⟨extra, he, hx⟩ := Run_extends range accepts c.Stream (.Register c :: post)
        (n + (pre ++ [Request.Publish M]).length) s1 w1
      refine ⟨extra, ?_, by simpa [published] using hx⟩
      simp only [he]
      have := hq.2
      simp only [Outcome.world] at this
      rw [this]
    | blocked s1 w1 =>
      rw [hp] at hq
      exact ⟨[], by simpa using hq.2, by simp⟩
  · have hown := Run_invariant range accepts
      (fun s' _ => ∀ e ∈ s'.Clients, e.2.Stream = c.Stream → e.1 = c.ID) p1 n s w
      (by
        intro r hrm n s' w' hP
        cases r with
        | Register client =>
          intro e he hes
          simp only [Run_step, Outcome.server, mapSet, List.mem_cons] at he
          rcases he with he | he
          · subst he; exact h1 client (mem_registers hrm) hes
          · exact hP e (mem_mapDelete.1 he).1 hes
        | Deregister id =>
          intro e he hes
          simp only [Run_step, Outcome.server] at he
          exact hP e (mem_mapDelete.1 he).1 hes
        | Publish message =>
          rw [Run_step_publish_server]; exact hP) h0
    rw [Run_append, Run_append range accepts p1 [.Deregister c.ID]]
    cases hp : Run range accepts n s w p1 with
    | running s1 w1 =>
      rw [hp] at hown
      simp only [Outcome.server] at hown
      have hd : Run_step range accepts (n + p1.length) s1 w1 (.Deregister c.ID) =
          .running ⟨mapDelete c.ID s1.Clients⟩ w1 := rfl
      simp only [Run_running_of_step hd]
      have hq := Run_quiet hr accepts c.Stream (p2 ++ .Publish M :: post) (n + p1.length + 1)
        ⟨mapDelete c.ID s1.Clients⟩ w1
        (fun e he hes => (mem_mapDelete.1 he).2 (hown e (mem_mapDelete.1 he).1 hes)) h2
      rw [hq.2]
      simp [Run, Outcome.world]
    | blocked s1 w1 => rfl
  · obtain ⟨k, hk⟩ := hmem
    refine ⟨fun ch => w1 ch ++ List.replicate (subscribersOn s1.Clients ch) M,
      subscribersOn s1.Clients c.Stream, ?_, subscribersOn_pos hk, rfl⟩
    rw [Run_append, hrun]
    show Run range accepts (n + pre.length) s1 w1 [.Publish M] = _
    rw [Run_running_of_step (Run_step_publish_all hr (n + pre.length) s1 w1 M hacc)]
    rfl

/-- Witness of C7: subscriber 1 on channel 0, subscriber 2 on channel 1. -/
theorem registration_boundary_witness :
    (Run (fun _ m => m) (fun _ => true) 0 NewSSEServer World.empty
        ([.Register ⟨2, 1⟩] ++ [.Publish "M"])).world 0 = [] ∧
    (Run (fun _ m => m) (fun _ => true) 0 ⟨[(1, ⟨1, 0⟩), (2, ⟨2, 1⟩)]⟩ World.empty
        ([.Publish "L"] ++ .Deregister 1 :: ([] ++ .Publish "M" :: []))).world 0 =
      (Run (fun _ m => m) (fun _ => true) 0 ⟨[(1, ⟨1, 0⟩), (2, ⟨2, 1⟩)]⟩ World.empty
        ([.Publish "L"] ++ [.Deregister 1])).world 0 ∧
    ∃ w2 k, Run (fun _ m => m) (fun _ => true) 0 ⟨[(1, ⟨1, 0⟩), (2, ⟨2, 1⟩)]⟩ World.empty
        ([] ++ [.Publish "M"]) = .running ⟨[(1, ⟨1, 0⟩), (2, ⟨2, 1⟩)]⟩ w2 ∧
      0 < k ∧ w2 0 = World.empty 0 ++ List.replicate k "M" :=
  ⟨((registration_boundary (fun _ m => m) (fun _ m => List.Perm.refl m) (fun _ => true) 0
      NewSSEServer World.empty ⟨1, 0⟩ "M").1 [.Register ⟨2, 1⟩] []
      (by decide) (by decide)).1,
    (registration_boundary (fun _ m => m) (fun _ m => List.Perm.refl m) (fun _ => true) 0
      ⟨[(1, ⟨1, 0⟩), (2, ⟨2, 1⟩)]⟩ World.empty ⟨1, 0⟩ "M").2.1 [.Publish "L"] [] []
      (by decide) (by decide) (by decide),
    (registration_boundary (fun _ m => m) (fun _ m => List.Perm.refl m) (fun _ => true) 0
      ⟨[(1, ⟨1, 0⟩), (2, ⟨2, 1⟩)]⟩ World.empty ⟨1, 0⟩ "M").2.2 []
      ⟨[(1, ⟨1, 0⟩), (2, ⟨2, 1⟩)]⟩ World.empty rfl ⟨1, by decide⟩ (fun _ _ => rfl)⟩

/-- C8. For every list of messages the drain loop of `SSEHandler` receives
from the outbox, the body it has written is the concatenation, in that order,
of one frame "data: " ++ message ++ "\n\n" for each message and nothing else:
after the writer `SSEHandler` starts with, after any writer, and also when the
channel is closed after the messages. -/
theorem handler_writes_frames (msgs : List String) :
    (SSEHandler_loop SSEHandler_writer (msgs.map Recv.value)).1.body =
      String.join (msgs.map (fun m => "data: " ++ m ++ "\n\n")) ∧
    (∀ events, (SSEHandler_loop SSEHandler_writer
        (msgs.map Recv.value ++ .closed :: events)).1.body =
      String.join (msgs.map (fun m => "data: " ++ m ++ "\n\n"))) ∧
    (∀ w, (SSEHandler_loop w (msgs.map Recv.value)).1.body =
      w.body ++ String.join (msgs.map (fun m => "data: " ++ m ++ "\n\n"))) := by
  refine ⟨?_, fun events => ?_, fun w => ?_⟩
  · rw [(SSEHandler_loop_values msgs _).1]; simp [SSEHandler_writer]
  · rw [SSEHandler_loop_append_closed, (SSEHandler_loop_values msgs _).1]
    simp [SSEHandler_writer]
  · exact (SSEHandler_loop_values msgs w).1

/-- C4 fails on the code. After connect, connect, disconnect of id 1, the only
subscriber in Clients has id 2 (channel 1); the id `SSEHandler` gives the next
connection is `len(Clients) + 1 = 2` again. Its Register replaces the entry of
the subscriber on channel 1, and a message published afterwards reaches
channel 2 and not channel 1. -/
theorem newClient_id_collides :
    mapLookup 2 (System.run (fun _ m => m) (fun _ => true) 0 System.init
      [.connect, .connect, .disconnect 1]).server.Clients = some ⟨2, 1⟩ ∧
    (SSEHandler_newClient (System.run (fun _ m => m) (fun _ => true) 0 System.init
      [.connect, .connect, .disconnect 1]).server 2).ID = 2 ∧
    (System.run (fun _ m => m) (fun _ => true) 0 System.init
      [.connect, .connect, .disconnect 1, .connect]).server.Clients = [(2, ⟨2, 2⟩)] ∧
    (System.run (fun _ m => m) (fun _ => true) 0 System.init
      [.connect, .connect, .disconnect 1, .connect, .publish "x"]).world 1 = [] ∧
    (System.run (fun _ m => m) (fun _ => true) 0 System.init
      [.connect, .connect, .disconnect 1, .connect, .publish "x"]).world 2 = ["x"] := by
  decide

/-- C9 fails on the code. The first connection is client 1 on channel 0. Once
its disconnect is processed, whatever events follow, its handler is still among
the handlers, no subscriber in Clients has its channel, nothing has been sent
on its channel, and its drain loop has not ended: it waits on `range
client.Stream` for a value or a close that no statement of the program
produces. -/
theorem handler_loop_never_ends (range : Nat → ClientMap → ClientMap) (hr : RangeOK range)
    (accepts : Chan → Bool) (evs : List Event) :
    (⟨1, 0⟩ : SSEClient) ∈ (System.run range accepts 0 System.init
        (.connect :: .disconnect 1 :: evs)).handlers ∧
    (∀ e ∈ (System.run range accepts 0 System.init
        (.connect :: .disconnect 1 :: evs)).server.Clients, e.2.Stream ≠ 0) ∧
    (System.run range accepts 0 System.init (.connect :: .disconnect 1 :: evs)).world 0 = [] ∧
    ((System.run range accepts 0 System.init
        (.connect :: .disconnect 1 :: evs)).handler ⟨1, 0⟩).2 = false := by
  have hs : System.step range accepts 1 (System.step range accepts 0 System.init .connect)
      (.disconnect 1) =
      { server := ⟨[]⟩, world := World.empty, made := 1, handlers := [⟨1, 0⟩],
        hubRunning := true } := rfl
  have hrun : System.run range accepts 0 System.init (.connect :: .disconnect 1 :: evs) =
      System.run range accepts 2
        { server := ⟨[]⟩, world := World.empty, made := 1, handlers := [⟨1, 0⟩],
          hubRunning := true } evs := by
    rw [← hs]; rfl
  rw [hrun]
  have hq := System.run_quiet hr accepts 0 evs 2
    { server := ⟨[]⟩, world := World.empty, made := 1, handlers := [⟨1, 0⟩],
      hubRunning := true } (by simp) (by simp)
  refine ⟨System.run_handlers range accepts _ evs 2 _ (by simp), hq.1, hq.2, ?_⟩
  unfold System.handler
  exact (SSEHandler_loop_values _ _).2

/-- Witness of the failure of C9: a publish and a second connection follow the disconnect. -/
theorem handler_loop_never_ends_witness :
    ((System.run (fun _ m => m) (fun _ => true) 0 System.init
        (.connect :: .disconnect 1 :: [.publish "x", .connect, .publish "y"])).handler
      ⟨1, 0⟩).2 = false :=
  (handler_loop_never_ends (fun _ m => m) (fun _ m => List.Perm.refl m) (fun _ => true)
    [.publish "x", .connect, .publish "y"]).2.2.2

end SSE
